import Mathlib

/-!
Verification of go-aliyundrive-webdav against its specification.

Shallow embedding of the relevant parts of the source:
* aliyun/tool.go, ContentHandle: the upload engine (chunking, rapid-upload
  proof, spool-file lifecycle, chunk-URL renewal);
* webdav/webdav.go: the WebDAV handlers (ServeHTTP token refresh,
  handlePut, handleDelete, handleGetHeadPost, handleCopyMove);
* the net package (PostExpectStatus, Put): the retrying HTTP client.

Machine integers (int64) are embedded as Int; byte slices as List Nat;
external effects (backend responses, file-system errors, clock readings)
are passed in explicitly through environment records.
-/

namespace AliyunWebdav

/-! ## Chunk layout (aliyun/tool.go, ContentHandle)

Source: `const DEFAULT int64 = 10485760` and
`count = math.Ceil(float64(r.ContentLength) / float64(DEFAULT))`.

The source computes the count in float64: the int64 length is converted to
a double (round to nearest, ties to even), divided by `float64(DEFAULT)`
(the IEEE quotient: the exact quotient rounded to nearest-even on the
result's binade grid), and `math.Ceil` plus the `int` conversion are exact
at these magnitudes. `chunkCountGo` below embeds that pipeline
bit-accurately using only integer arithmetic; `chunkCount` is the exact
ceiling `⌈n / DEFAULT⌉` from the spec's chunking formula, the comparison
target. The two provably coincide for every `n ≤ 2^53` (all doubles are
exact integers there and the quotient rounding error, at most 2^-24, is
below the 1/DEFAULT gap around integers) and provably diverge above, e.g.
at `n = 10 * 2^50 + 1`.

Chunk buffer sizes (the `make([]byte, ...)` in the upload loop):
`count == 1 → ContentLength`, `i == count-1 → ContentLength - i*DEFAULT`,
otherwise `DEFAULT`. -/

def DEFAULT : ℕ := 10485760

/-- The spec's chunk-count formula for a positive declared content length
`n`: the exact ceiling of `n / DEFAULT` (§8: "chunk count for a content
length n equals ceil(n / 10MiB)"). Compared against the source's float64
computation `chunkCountGo`. -/
def chunkCount (n : ℕ) : ℕ := ⌈(n : ℚ) / (DEFAULT : ℚ)⌉₊

/-- Size of the `i`-th chunk buffer, as computed inside the upload loop of
`ContentHandle` for content length `n` and chunk count `count`. -/
def chunkSize (n count i : ℕ) : ℕ :=
  if count = 1 then n
  else if i = count - 1 then n - i * DEFAULT
  else DEFAULT

/-- Binary-exponent search: for `1 ≤ b ≤ a < b * 2 ^ fuel` it returns the
`e` with `b * 2 ^ e ≤ a < b * 2 ^ (e + 1)` by doubling `b`. -/
def expUpN : ℕ → ℕ → ℕ → ℕ
  | 0, _, _ => 0
  | f + 1, a, b => if a < 2 * b then 0 else expUpN f a (2 * b) + 1

/-- Binary-exponent search below 1: for `1 ≤ a < b ≤ a * 2 ^ fuel` it
returns the `k ≥ 1` with `b ≤ a * 2 ^ k < 2 * b` (so `a / b` lies in
`[2^(-k), 2^(-k+1))`) by doubling `a`. -/
def expDownN : ℕ → ℕ → ℕ → ℕ
  | 0, _, _ => 0
  | f + 1, a, b => if b ≤ 2 * a then 1 else expDownN f (2 * a) b + 1

/-- IEEE-754 round to nearest, ties to even, of the exact quotient
`(den * qq + rr) / den` (with `rr = (den * qq + rr) % den`) expressed on
integers: round down below the halfway point, up above it, and to the even
of `qq, qq + 1` on a tie. -/
def rneScaled (qq rr den : ℕ) : ℕ :=
  if 2 * rr < den then qq
  else if den < 2 * rr then qq + 1
  else if qq % 2 = 0 then qq else qq + 1

/-- Go `float64(m)` for a non-negative integer `m`: round to nearest-even
onto the 53-bit mantissa grid of `m`'s binade (spacing `2^(e-52)` where
`2^e ≤ m < 2^(e+1)`); exact for `m ≤ 2^53`. The fuel 1200 covers every
int64. -/
def round53 (m : ℕ) : ℕ :=
  let e := expUpN 1200 m 1
  if e ≤ 52 then m
  else
    let scale := 2 ^ (e - 52)
    rneScaled (m / scale) (m % scale) scale * scale

/-- The source's chunk count with its float64 semantics, in exact integer
arithmetic: `int64(math.Ceil(float64(n) / float64(DEFAULT)))`.
`float64(n)` is `round53 n`; `DEFAULT` is exactly representable; the IEEE
quotient is the exact quotient `nf / DEFAULT` rounded to nearest-even on
the grid `2^(e-52)` of its binade `[2^e, 2^(e+1))` — computed here as
`rneScaled` on `nf * 2^(52-e)` divided by `DEFAULT` (for every int64 length
the quotient exponent `e` lies in `[-24, 39]`, so `52 - e ≥ 13 ≥ 0` and no
subnormals arise); `math.Ceil` and the `int` conversion are exact because
the count is far below 2^53, giving the ceiling division at the end. -/
def chunkCountGo (n : ℕ) : ℕ :=
  let nf := round53 n
  let t := if 10485760 ≤ nf then 52 - expUpN 1200 nf 10485760
           else 52 + expDownN 1200 nf 10485760
  let a := nf * 2 ^ t
  let m := rneScaled (a / 10485760) (a % 10485760) 10485760
  (m + 2 ^ t - 1) / 2 ^ t

/-- Value of one hex digit, as accepted by Go's strconv.ParseUint base 16. -/
def hexDigitVal (c : Char) : Option ℕ :=
  if '0' ≤ c ∧ c ≤ '9' then some (c.toNat - 48)
  else if 'a' ≤ c ∧ c ≤ 'f' then some (c.toNat - 87)
  else if 'A' ≤ c ∧ c ≤ 'F' then some (c.toNat - 55)
  else none

/-- strconv.ParseUint(s, 16, 64) on at most 16 hex digits: `none` on an empty
string or an invalid digit (16 digits cannot overflow 64 bits). -/
def parseHex (l : List Char) : Option ℕ :=
  if l = [] then none
  else l.foldl (fun acc c =>
    match acc, hexDigitVal c with
    | some a, some d => some (a * 16 + d)
    | _, _ => none) (some 0)

/-- Proof offset: the first 16 hex characters of the access-token MD5 digest,
parsed as an unsigned 64-bit integer, reduced modulo the content length.
On a parse error the source logs and keeps `f = 0` (its zero value). -/
def proofOffset (tokenMd5Hex : List Char) (n : ℕ) : ℕ :=
  ((parseHex (tokenMd5Hex.take 16)).getD 0) % n

/-- End of the proof read window: `math.Min(float64(offset+8), float64(n))`. -/
def proofEnd (off n : ℕ) : ℕ := min (off + 8) n

/-- The `int64(end)-offset` bytes read at `offset` from the spooled content
(`intermediateFile.ReadAt(off, offset)`). -/
def proofWindow (content : List ℕ) (off fin : ℕ) : List ℕ :=
  (content.drop off).take (fin - off)

/-- Standard base64 alphabet. -/
def base64Alphabet : List Char :=
  ("ABCDEFGHIJKLMNOPQRSTUVWXYZabcdefghijklmnopqrstuvwxyz0123456789+/").toList

/-- RFC 4648 base64 encoding of a byte sequence (with padding). -/
def base64Encode : List ℕ → List Char
  | [] => []
  | [b1] =>
      [base64Alphabet.getD (b1 / 4) '?',
       base64Alphabet.getD (b1 % 4 * 16) '?', '=', '=']
  | [b1, b2] =>
      [base64Alphabet.getD (b1 / 4) '?',
       base64Alphabet.getD (b1 % 4 * 16 + b2 / 16) '?',
       base64Alphabet.getD (b2 % 16 * 4) '?', '=']
  | b1 :: b2 :: b3 :: rest =>
      base64Alphabet.getD (b1 / 4) '?' ::
      base64Alphabet.getD (b1 % 4 * 16 + b2 / 16) '?' ::
      base64Alphabet.getD (b2 % 16 * 4 + b3 / 64) '?' ::
      base64Alphabet.getD (b3 % 64) '?' ::
      base64Encode rest

/-- Modelled from the spec: utils.GetProof is not under src/; §4.3 step 4
describes it as deriving "a proof value from them (base64 of the raw bytes)".
It is embedded as the base64 rendering of the raw window bytes. -/
def GetProof (bytes : List ℕ) : List Char := base64Encode bytes

/-! ## COPY/MOVE classification (webdav/webdav.go, handleCopyMove)

Source, after stripping the prefix and trimming slashes from `src` and `dst`:
`srcIndex := strings.LastIndex(src, "/"); dstIndex := strings.LastIndex(dst, "/")`,
then `rename` is set when `srcIndex == -1 && srcIndex == dstIndex` or when
`srcIndex == dstIndex` and `src[:srcIndex+1] == dst[:dstIndex+1]`; otherwise,
when `src[srcIndex+1:] == dst[dstIndex+1:] && srcIndex != dstIndex`, the
operation is one `aliyun.BatchFile` (batch move) call; otherwise it falls
through to the generic recursive `copyFiles`/`moveFiles`. Paths are embedded
as character lists. -/

/-- strings.LastIndex(s, "/"): index of the last slash, -1 when absent. -/
def lastIndexSlash : List Char → ℤ
  | [] => -1
  | c :: rest =>
      let r := lastIndexSlash rest
      if 0 ≤ r then r + 1
      else if c = '/' then 0 else -1

/-- Go slice `s[:i]` for a non-negative index expression `i`. -/
def takePos (i : ℤ) (l : List Char) : List Char := l.take i.toNat

/-- Go slice `s[i:]` for a non-negative index expression `i`. -/
def dropPos (i : ℤ) (l : List Char) : List Char := l.drop i.toNat

inductive CopyMoveClass where
  | rename
  | batchMove
  | generic
  deriving DecidableEq, Repr

/-- The classification performed by handleCopyMove on the trimmed source and
destination paths: rename, single batch-move backend call, or the generic
recursive copy/move. -/
def classifyCopyMove (src dst : List Char) : CopyMoveClass :=
  let si := lastIndexSlash src
  let di := lastIndexSlash dst
  if (si = -1 ∧ si = di) ∨ (si = di ∧ takePos (si + 1) src = takePos (di + 1) dst) then
    .rename
  else if dropPos (si + 1) src = dropPos (di + 1) dst ∧ si ≠ di then
    .batchMove
  else
    .generic

/-! ## Access-token refresh before dispatch (webdav/webdav.go, ServeHTTP)

Source: `if h.Config.ExpireTime < time.Now().Unix()-100 { refreshResult :=
aliyun.RefreshToken(...); h.Config = config }` followed by the method switch.
The refresh result is passed in as `refreshed`. -/

structure Config where
  refreshToken : String
  token : String
  driveId : String
  expireTime : ℤ
  deriving DecidableEq, Repr

/-- The refresh condition of ServeHTTP. -/
def needRefresh (expireTime now : ℤ) : Bool := expireTime < now - 100

/-- The configuration snapshot that the method dispatch (the switch in
ServeHTTP) observes: the freshly built one when the refresh condition held,
the held one otherwise. -/
def dispatchConfig (cfg : Config) (now : ℤ) (refreshed : Config) : Config :=
  if needRefresh cfg.expireTime now then refreshed else cfg

/-! ## Retrying HTTP client (package net: PostExpectStatus, Put)

PostExpectStatus: `for i := 0; i < 5; i++ { res, err := client.Do(req);
if err != nil { sleep 5s; continue }; ...; return body, res.StatusCode }`
then `return nil, -1`. It retries ONLY transport errors; any received
response — whatever its status code — is returned at once.
Put: `for i := 0; i < 5; i++ { res, err := client.Do(req);
if err != nil || res.StatusCode != 200 { sleep 5s; continue }; ...;
return body, 0 }` then `return nil, -1`.
An attempt outcome is `none` for a transport error and `some s` for a
response with HTTP status `s`. Results are (code, attempts-made) pairs. -/

/-- Fixed delay between retries of a backend call, in seconds. -/
def retrySleepSeconds : ℕ := 5

def postGo (attempts : ℕ → Option ℤ) (i : ℕ) : ℕ → ℤ × ℕ
  | 0 => (-1, 0)
  | fuel + 1 =>
      match attempts i with
      | some s => (s, 1)
      | none =>
          let (r, m) := postGo attempts (i + 1) fuel
          (r, m + 1)

/-- net.PostExpectStatus: the status code it reports, together with the
number of transport attempts it made. -/
def postExpectStatus (attempts : ℕ → Option ℤ) : ℤ × ℕ := postGo attempts 0 5

def putGo (attempts : ℕ → Option ℤ) (i : ℕ) : ℕ → ℤ × ℕ
  | 0 => (-1, 0)
  | fuel + 1 =>
      match attempts i with
      | some s =>
          if s = 200 then (0, 1)
          else
            let (r, m) := putGo attempts (i + 1) fuel
            (r, m + 1)
      | none =>
          let (r, m) := putGo attempts (i + 1) fuel
          (r, m + 1)

/-- net.Put: its reported code (0 on success, -1 on exhaustion) together with
the number of attempts it made. -/
def putRetry (attempts : ℕ → Option ℤ) : ℤ × ℕ := putGo attempts 0 5

/-! ## Path-resolution statuses (webdav/webdav.go, handleDelete and
handleGetHeadPost)

handleGetHeadPost resolution prefix: `fi = aliyun.GetFileDetail(...,
getParentFileId(strArr)); if fi.FileId == "" { fi, _, err = aliyun.Walk(...);
if err != nil { return 0, err } }; if err != nil || fi.FileId == "" {
return http.StatusNotFound, err }`.

handleDelete: tries the cached detail, falls back to a full walk from "root",
removes the object when the resolved name matches the last path segment —
and in every case falls through to `return http.StatusNoContent, nil` (204),
including when the path resolves to nothing. -/

structure FileDetail where
  fileId : String
  name : String
  parentFileId : String
  deriving DecidableEq, Repr

/-- The early status decided by handleGetHeadPost's resolution prefix:
`some 0` (no explicit status written) when the fallback walk errors,
`some 404` when resolution yields no file id, `none` when resolution
succeeded and the handler proceeds to serve the file. -/
def ghpEarlyStatus (detail : FileDetail) (walkErr : Bool) (walkFi : FileDetail) :
    Option ℕ :=
  if detail.fileId ≠ "" then none
  else if walkErr then some 0
  else if walkFi.fileId = "" then some 404
  else none

structure DeleteOut where
  status : ℕ
  removed : Bool
  deriving DecidableEq, Repr

/-- handleDelete for a non-empty path whose last segment is `lastSeg`:
`detail` is the GetFileDetail result for the cached parent id, and the
fallback walk from "root" yields `walkErr`/`walkFi`. The trash call happens
only on a name match; the handler always answers 204. -/
def handleDelete (lastSeg : String) (detail : FileDetail)
    (walkErr : Bool) (walkFi : FileDetail) : DeleteOut :=
  if detail.name = lastSeg then { status := 204, removed := true }
  else if walkErr = false ∧ walkFi.name = lastSeg then { status := 204, removed := true }
  else { status := 204, removed := false }

/-! ## Upload engine (aliyun/tool.go, ContentHandle)

The engine's interactions with the outside world are passed in through `Env`:
the declared content length (`r.ContentLength`, an int64), the spooled body
bytes, the hex MD5 of the access token, the success of each file-system step,
the status code of the pre-hash probe, the UpdateFileFile response, the
per-chunk clock/read/upload outcomes, and the GetUploadUrls renewal
responses (indexed by a running call counter).

Per §6 of the spec, get-upload-urls (not under src/) answers with the full
chunk-URL set — one URL per chunk — or fails; a failed call is embedded as
the empty list. An upload URL is embedded as its parsed x-oss-expires value
plus an identifying tag. -/

/-- A pre-signed chunk upload URL: its embedded x-oss-expires timestamp and
an identifying tag standing for the rest of the URL string. -/
structure UploadUrlT where
  expire : ℤ
  tag : ℕ
  deriving DecidableEq, Repr

/-- The four results of UpdateFileFile (not under src/): upload URLs, upload
id, file id, and the backend's rapid-upload confirmation. -/
structure UpdateResult where
  urls : List UploadUrlT
  uploadId : String
  fileId : String
  flashUpload : Bool
  deriving DecidableEq, Repr

structure Env where
  contentLength : ℤ
  body : List ℕ
  tokenMd5Hex : List Char
  osCreateOk : Bool
  copyOk : Bool
  preHashReadOk : Bool
  preHashStatus : ℤ
  proofSeekOk : Bool
  proofReadOk : Bool
  seekOk : Bool
  sha1Ok : Bool
  updateResult : UpdateResult
  statOk : Bool
  seek2Ok : Bool
  chunkReadOk : ℕ → Bool
  nowAtChunk : ℕ → ℤ
  renewResp : ℕ → List UploadUrlT
  uploadOk : ℕ → Bool

/-- Observable outcome of one ContentHandle run. `fileId` is its string
result; the other fields record the externally visible events: whether the
spool (intermediate) file was created and removed, whether the zero-byte
fast path used the well-known empty-content SHA-1, the proof value computed
in the 409 branch, the sizes of the chunk buffers actually uploaded, how
many GetUploadUrls renewal calls were made, whether UploadFileComplete ran,
and whether an out-of-range URL index would have panicked. -/
structure CHResult where
  fileId : String
  spoolCreated : Bool
  spoolRemoved : Bool
  usedEmptyHash : Bool
  proofComputed : Option (List Char)
  chunksSent : List ℕ
  renewCallsMade : ℕ
  completed : Bool
  panicked : Bool
  deriving DecidableEq, Repr

/-- SHA-1 of the empty byte sequence, hard-coded in the zero-length path. -/
def sha1Empty : String := "DA39A3EE5E6B4B0D3255BFEF95601890AFD80709"

/-- Fixed delay between chunk-URL renewal attempts, in seconds
(`time.Sleep(10 * time.Second)`). -/
def renewSleepSeconds : ℕ := 10

/-- One renewal episode: `for i := 0; i < 10; i++ { uploadUrl =
GetUploadUrls(...); if len(uploadUrl) == int(count) { break }; sleep }`.
`c` is the index of the next GetUploadUrls call; `fuel` is the number of
loop iterations still allowed after the current one (9 at entry).
Returns the final `uploadUrl` value and the number of calls made. -/
def renewGo (resp : ℕ → List UploadUrlT) (count : ℕ) : ℕ → ℕ → List UploadUrlT × ℕ
  | c, 0 => (resp c, 1)
  | c, fuel + 1 =>
      let u := resp c
      if u.length = count then (u, 1)
      else
        let r := renewGo resp count (c + 1) fuel
        (r.1, r.2 + 1)

/-- The renewal loop as entered from the upload loop: at most 10 calls. -/
def renewUploadUrls (resp : ℕ → List UploadUrlT) (count c : ℕ) :
    List UploadUrlT × ℕ := renewGo resp count c 9

structure LoopOut where
  fileId : String
  chunksSent : List ℕ
  renewCallsMade : ℕ
  completed : Bool
  panicked : Bool
  deriving DecidableEq, Repr

/-- The chunk upload loop (`for i := 0; i < int(count); i++`). `rem` is the
number of chunks still to process, so the loop index is `i = count - rem`;
`urls` is the current `uploadUrl` slice, `c` the renewal-call counter and
`acc` the reversed list of chunk sizes uploaded so far. Each iteration
reads the chunk buffer, checks the URL's x-oss-expires against the clock,
renews the whole URL set on expiry (aborting when the renewed set is
empty), and uploads the chunk. -/
def uploadLoop (env : Env) (n count : ℕ) (fid : String) :
    ℕ → List UploadUrlT → ℕ → List ℕ → LoopOut
  | 0, _, c, acc =>
      { fileId := fid, chunksSent := acc.reverse, renewCallsMade := c,
        completed := true, panicked := false }
  | rem + 1, urls, c, acc =>
      let i := count - (rem + 1)
      if env.chunkReadOk i = false then
        { fileId := "", chunksSent := acc.reverse, renewCallsMade := c,
          completed := false, panicked := false }
      else
        match urls.get? i with
        | none =>
            { fileId := "", chunksSent := acc.reverse, renewCallsMade := c,
              completed := false, panicked := true }
        | some u =>
            if env.nowAtChunk i > u.expire then
              let ru := renewUploadUrls env.renewResp count c
              if ru.1.length = 0 then
                { fileId := "", chunksSent := acc.reverse,
                  renewCallsMade := c + ru.2, completed := false, panicked := false }
              else
                match ru.1.get? i with
                | none =>
                    { fileId := "", chunksSent := acc.reverse,
                      renewCallsMade := c + ru.2, completed := false, panicked := true }
                | some _ =>
                    if env.uploadOk i then
                      uploadLoop env n count fid rem ru.1 (c + ru.2)
                        (chunkSize n count i :: acc)
                    else
                      { fileId := "", chunksSent := acc.reverse,
                        renewCallsMade := c + ru.2, completed := false, panicked := false }
            else
              if env.uploadOk i then
                uploadLoop env n count fid rem urls c (chunkSize n count i :: acc)
              else
                { fileId := "", chunksSent := acc.reverse, renewCallsMade := c,
                  completed := false, panicked := false }

/-- A failing return inside the spooled part of ContentHandle (the deferred
close/remove of the wrapper still applies on top of this). -/
def failCH (proof : Option (List Char)) : CHResult :=
  { fileId := "", spoolCreated := false, spoolRemoved := false,
    usedEmptyHash := false, proofComputed := proof, chunksSent := [],
    renewCallsMade := 0, completed := false, panicked := false }

/-- Steps following UpdateFileFile that are shared by the eligible and
non-eligible branches: the `len(uploadUrl) == 0` guard, Stat, the seek back
to 0, and the chunk loop followed by UploadFileComplete. -/
def afterUpdate (env : Env) (n count : ℕ) (proof : Option (List Char))
    (ur : UpdateResult) : CHResult :=
  if ur.urls.length = 0 then failCH proof
  else if env.statOk = false then failCH proof
  else if env.seek2Ok = false then failCH proof
  else
    let lo := uploadLoop env n count ur.fileId count ur.urls 0 []
    { fileId := lo.fileId, spoolCreated := false, spoolRemoved := false,
      usedEmptyHash := false, proofComputed := proof, chunksSent := lo.chunksSent,
      renewCallsMade := lo.renewCallsMade, completed := lo.completed,
      panicked := lo.panicked }

/-- Tail of the rapid-eligible branch after the 409 check: the seek back to
0, the full-content SHA-1 pass, UpdateFileFile, and the rapid-upload return
(`if flashUpload && (uploadFileId != "")`). -/
def afterHash (env : Env) (n count : ℕ) (proof : Option (List Char)) : CHResult :=
  if env.seekOk = false then failCH proof
  else if env.sha1Ok = false then failCH proof
  else
    let ur := env.updateResult
    if ur.flashUpload ∧ ur.fileId ≠ "" then
      { fileId := ur.fileId, spoolCreated := false, spoolRemoved := false,
        usedEmptyHash := false, proofComputed := proof, chunksSent := [],
        renewCallsMade := 0, completed := false, panicked := false }
    else
      afterUpdate env n count proof ur

/-- The body of ContentHandle between the successful `os.Create` and the
function's return (the deferred Close/Remove of the spool file are applied
by the `ContentHandle` wrapper): the io.Copy spooling, the rapid-upload
probe for sizes in (150 KiB, 25 GiB], the 409 proof computation, and the
upload pipeline. -/
def contentHandleSpooled (env : Env) (n count : ℕ) : CHResult :=
  if env.copyOk = false then failCH none
  else if 153600 < env.contentLength ∧ env.contentLength ≤ 26843545600 then
    if env.preHashReadOk = false then failCH none
    else if env.preHashStatus = 409 then
      if env.proofSeekOk = false then failCH none
      else if env.proofReadOk = false then failCH none
      else
        let off := proofOffset env.tokenMd5Hex n
        let w := proofWindow env.body off (proofEnd off n)
        afterHash env n count (some (GetProof w))
    else
      afterHash env n count none
  else
    afterUpdate env n count none env.updateResult

/-- aliyun/tool.go ContentHandle. For a positive declared length it creates
the spool file (with deferred Close and Remove) and runs the spooled
pipeline; for length ≤ 0 it creates the remote object directly with the
well-known empty-content SHA-1 and no spool file. -/
def ContentHandle (env : Env) : CHResult :=
  if 0 < env.contentLength then
    let n := env.contentLength.toNat
    let count := chunkCount n
    if env.osCreateOk = false then failCH none
    else
      let r := contentHandleSpooled env n count
      { r with spoolCreated := true, spoolRemoved := true }
  else
    if env.updateResult.fileId ≠ "" then
      { fileId := env.updateResult.fileId, spoolCreated := false,
        spoolRemoved := false, usedEmptyHash := true, proofComputed := none,
        chunksSent := [], renewCallsMade := 0, completed := false,
        panicked := false }
    else
      { failCH none with usedEmptyHash := true }

/-! ## Shared cache (go-cache) and handlePut (webdav/webdav.go)

The process-wide cache.GoCache is embedded as an association list from key
strings to value strings (for entries whose payload is a model struct, the
stored value is its file id; only presence/absence and string payloads are
consulted by the embedded handlers). Set overwrites, Delete removes. -/

abbrev Cache := List (String × String)

def cacheGet (c : Cache) (k : String) : Option String :=
  (c.find? (fun p => p.1 == k)).map (·.2)

def cacheDel (c : Cache) (k : String) : Cache :=
  c.filter (fun p => p.1 != k)

def cacheSet (c : Cache) (k : String) (v : String) : Cache :=
  (k, v) :: cacheDel c k

/-! handlePut, the version dispatched by the current ServeHTTP: the
IN_PROGRESS guard, the Darwin dot-file short-circuit, parent resolution
through the FID_ cache with a WalkFolder fallback (409 when the parent
cannot be found), the IN_PROGRESS marker around the ContentHandle call, and
the 201/400 answer. -/

structure PutEnv where
  reqPath : List Char
  stripErr : Bool
  darwinDotFile : Bool
  parentDetail : FileDetail
  walkOk : Bool
  walkFi : FileDetail

structure PutOut where
  status : ℕ
  cacheOut : Cache
  engineInvoked : Bool
  engineCache : Option Cache
  backendCalls : ℕ
  engineResult : Option CHResult
  deriving Repr

def strOf (l : List Char) : String := String.mk l

/-- The tail of handlePut shared by every resolution branch that proceeds to
upload: set the IN_PROGRESS marker, run ContentHandle, delete the marker
(the deferred delete is a no-op by then), and answer 201 with a FID_ cache
insert on success or 400 on failure. -/
def putContinueUpload (rp fileName : String) (c1 : Cache) (bc : ℕ) (chEnv : Env) :
    PutOut :=
  let c2 := cacheSet c1 ("IN_PROGRESS" ++ rp) fileName
  let r := ContentHandle chEnv
  let c3 := cacheDel c2 ("IN_PROGRESS" ++ rp)
  if r.fileId ≠ "" then
    { status := 201, cacheOut := cacheSet c3 ("FID_" ++ rp) r.fileId,
      engineInvoked := true, engineCache := some c2, backendCalls := bc,
      engineResult := some r }
  else
    { status := 400, cacheOut := c3, engineInvoked := true,
      engineCache := some c2, backendCalls := bc, engineResult := some r }

def putNoEngine (status : ℕ) (cacheIn : Cache) (bc : ℕ) : PutOut :=
  { status := status, cacheOut := cacheIn, engineInvoked := false,
    engineCache := none, backendCalls := bc, engineResult := none }

def handlePut (cacheIn : Cache) (p : PutEnv) (chEnv : Env) : PutOut :=
  let rp := strOf p.reqPath
  if (cacheGet cacheIn ("IN_PROGRESS" ++ rp)).isSome then
    putNoEngine 201 cacheIn 0
  else if p.stripErr then
    putNoEngine 404 cacheIn 0
  else if p.darwinDotFile then
    putNoEngine 200 cacheIn 0
  else
    let li := lastIndexSlash p.reqPath
    let fileName := strOf (dropPos (li + 1) p.reqPath)
    let dirname := takePos li p.reqPath
    if p.reqPath ≠ [] ∧ p.reqPath.getLast? ≠ some '/' then
      match cacheGet cacheIn ("FID_" ++ strOf dirname) with
      | some _ =>
          -- cache hit: one GetFileDetail backend call, no cache mutation
          putContinueUpload rp fileName cacheIn 1 chEnv
      | none =>
          -- cache miss: one WalkFolder backend call
          if p.walkOk then
            if p.walkFi.name = strOf (dropPos (lastIndexSlash dirname + 1) dirname) then
              let c1 := cacheSet
                  (cacheSet cacheIn ("FID_" ++ strOf dirname) p.walkFi.fileId)
                  ("FI_" ++ p.walkFi.fileId) p.walkFi.fileId
              putContinueUpload rp fileName c1 1 chEnv
            else
              putNoEngine 409 cacheIn 1
          else
            putNoEngine 409 cacheIn 1
    else
      putContinueUpload rp fileName cacheIn 0 chEnv

def envSpoolW : Env :=
  { contentLength := 1, body := [0], tokenMd5Hex := [],
    osCreateOk := true, copyOk := false, preHashReadOk := true,
    preHashStatus := 0, proofSeekOk := true, proofReadOk := true,
    seekOk := true, sha1Ok := true,
    updateResult := { urls := [], uploadId := "", fileId := "", flashUpload := false },
    statOk := true, seek2Ok := true, chunkReadOk := fun _ => true,
    nowAtChunk := fun _ => 0, renewResp := fun _ => [], uploadOk := fun _ => true }

def envProofW : Env :=
  { contentLength := 153601, body := List.replicate 153601 0,
    tokenMd5Hex := ("0123456789abcdef").toList,
    osCreateOk := true, copyOk := true, preHashReadOk := true,
    preHashStatus := 409, proofSeekOk := true, proofReadOk := true,
    seekOk := true, sha1Ok := true,
    updateResult := { urls := [], uploadId := "", fileId := "", flashUpload := false },
    statOk := true, seek2Ok := true, chunkReadOk := fun _ => true,
    nowAtChunk := fun _ => 0, renewResp := fun _ => [], uploadOk := fun _ => true }

def putEnvW : PutEnv :=
  { reqPath := ("x").toList, stripErr := false, darwinDotFile := false,
    parentDetail := ⟨"", "", ""⟩, walkOk := true, walkFi := ⟨"p1", "", ""⟩ }

def envZeroW : Env :=
  { contentLength := 0, body := [], tokenMd5Hex := [],
    osCreateOk := true, copyOk := true, preHashReadOk := true,
    preHashStatus := 0, proofSeekOk := true, proofReadOk := true,
    seekOk := true, sha1Ok := true,
    updateResult := { urls := [], uploadId := "", fileId := "fid0", flashUpload := false },
    statOk := true, seek2Ok := true, chunkReadOk := fun _ => true,
    nowAtChunk := fun _ => 0, renewResp := fun _ => [], uploadOk := fun _ => true }

def ecMarkerW : Cache :=
  [("IN_PROGRESSx", "x"), ("FI_p1", "p1"), ("FID_", "p1")]

/-! ## Theorems -/

theorem chunkCount_eq_div (n : ℕ) : chunkCount n = (n + DEFAULT - 1) / DEFAULT := by
  have hD : DEFAULT = 10485760 := rfl
  rw [chunkCount, hD]
  simp only [Nat.cast_ofNat]
  rcases Nat.eq_zero_or_pos n with h0 | hpos
  · subst h0
    norm_num
  · have hdm := Nat.div_add_mod (n + 10485760 - 1) 10485760
    have hr : (n + 10485760 - 1) % 10485760 < 10485760 := Nat.mod_lt _ (by norm_num)
    set m : ℕ := (n + 10485760 - 1) / 10485760 with hm
    have hmne : m ≠ 0 := by omega
    rw [Nat.ceil_eq_iff hmne]
    have hQ : (0 : ℚ) < (10485760 : ℚ) := by norm_num
    constructor
    · rw [lt_div_iff₀ hQ]
      have hnat : (m - 1) * 10485760 < n := by omega
      calc ((m - 1 : ℕ) : ℚ) * (10485760 : ℚ) = (((m - 1) * 10485760 : ℕ) : ℚ) := by
            push_cast; ring
        _ < (n : ℚ) := by exact_mod_cast hnat
    · rw [div_le_iff₀ hQ]
      have hnat : n ≤ m * 10485760 := by omega
      calc (n : ℚ) ≤ ((m * 10485760 : ℕ) : ℚ) := by exact_mod_cast hnat
        _ = (m : ℚ) * (10485760 : ℚ) := by push_cast; ring

theorem chunkCount_pos (n : ℕ) (h : 1 ≤ n) : 1 ≤ chunkCount n := by
  rw [chunkCount_eq_div]
  have hD : DEFAULT = 10485760 := rfl
  rw [hD]
  have hdm := Nat.div_add_mod (n + 10485760 - 1) 10485760
  have hr : (n + 10485760 - 1) % 10485760 < 10485760 := Nat.mod_lt _ (by norm_num)
  omega

theorem chunkCount_pred_mul_lt (n : ℕ) (h : 1 ≤ n) :
    (chunkCount n - 1) * DEFAULT < n := by
  rw [chunkCount_eq_div]
  have hD : DEFAULT = 10485760 := rfl
  rw [hD]
  have hdm := Nat.div_add_mod (n + 10485760 - 1) 10485760
  have hr : (n + 10485760 - 1) % 10485760 < 10485760 := Nat.mod_lt _ (by norm_num)
  omega

theorem le_chunkCount_mul (n : ℕ) : n ≤ chunkCount n * DEFAULT := by
  rw [chunkCount_eq_div]
  have hD : DEFAULT = 10485760 := rfl
  rw [hD]
  have hdm := Nat.div_add_mod (n + 10485760 - 1) 10485760
  have hr : (n + 10485760 - 1) % 10485760 < 10485760 := Nat.mod_lt _ (by norm_num)
  omega

theorem chunkSize_sum (n : ℕ) (h : 1 ≤ n) :
    ∑ i ∈ Finset.range (chunkCount n), chunkSize n (chunkCount n) i = n := by
  set c := chunkCount n with hc
  have hc1 : 1 ≤ c := chunkCount_pos n h
  rcases Nat.eq_or_lt_of_le hc1 with h1 | h2
  · rw [← h1]
    simp [chunkSize]
  · have hcsucc : c = (c - 1) + 1 := by omega
    rw [hcsucc, Finset.sum_range_succ, ← hcsucc]
    have hlast : chunkSize n c (c - 1) = n - (c - 1) * DEFAULT := by
      unfold chunkSize
      rw [if_neg (by omega), if_pos rfl]
    have hmid : ∀ i ∈ Finset.range (c - 1), chunkSize n c i = DEFAULT := by
      intro i hi
      simp only [Finset.mem_range] at hi
      unfold chunkSize
      rw [if_neg (by omega), if_neg (by omega)]
    rw [Finset.sum_congr rfl hmid, hlast, Finset.sum_const, Finset.card_range, smul_eq_mul]
    have := chunkCount_pred_mul_lt n h
    rw [← hc] at this
    omega

theorem expUpN_spec : ∀ (f a b : ℕ), 1 ≤ b → b ≤ a → a < b * 2 ^ f →
    b * 2 ^ expUpN f a b ≤ a ∧ a < b * 2 ^ (expUpN f a b + 1) := by
  intro f
  induction f with
  | zero =>
      intro a b hb hba hf
      simp at hf
      omega
  | succ f ih =>
      intro a b hb hba hf
      by_cases h : a < 2 * b
      · simp only [expUpN, if_pos h, pow_zero, pow_one]
        omega
      · have h2b : 2 * b ≤ a := by omega
        have hf' : a < 2 * b * 2 ^ f := by
          calc a < b * 2 ^ (f + 1) := hf
          _ = 2 * b * 2 ^ f := by ring
        obtain ⟨ih1, ih2⟩ := ih a (2 * b) (by omega) h2b hf'
        simp only [expUpN, if_neg h]
        constructor
        · calc b * 2 ^ (expUpN f a (2 * b) + 1) = 2 * b * 2 ^ expUpN f a (2 * b) := by ring
          _ ≤ a := ih1
        · calc a < 2 * b * 2 ^ (expUpN f a (2 * b) + 1) := ih2
          _ = b * 2 ^ (expUpN f a (2 * b) + 1 + 1) := by ring

theorem expDownN_spec : ∀ (f a b : ℕ), 1 ≤ a → a < b → b ≤ a * 2 ^ f →
    1 ≤ expDownN f a b ∧ b ≤ a * 2 ^ expDownN f a b ∧ a * 2 ^ expDownN f a b < 2 * b := by
  intro f
  induction f with
  | zero =>
      intro a b ha hab hf
      simp at hf
      omega
  | succ f ih =>
      intro a b ha hab hf
      by_cases h : b ≤ 2 * a
      · simp only [expDownN, if_pos h, pow_one]
        omega
      · have h2a : 2 * a < b := by omega
        have hf' : b ≤ 2 * a * 2 ^ f := by
          calc b ≤ a * 2 ^ (f + 1) := hf
          _ = 2 * a * 2 ^ f := by ring
        obtain ⟨ih1, ih2, ih3⟩ := ih (2 * a) b (by omega) h2a hf'
        simp only [expDownN, if_neg h]
        refine ⟨by omega, ?_, ?_⟩
        · calc b ≤ 2 * a * 2 ^ expDownN f (2 * a) b := ih2
          _ = a * 2 ^ (expDownN f (2 * a) b + 1) := by ring
        · calc a * 2 ^ (expDownN f (2 * a) b + 1) = 2 * a * 2 ^ expDownN f (2 * a) b := by ring
          _ < 2 * b := ih3

theorem round53_id (n : ℕ) (h : n ≤ 2 ^ 53) : round53 n = n := by
  rcases Nat.eq_zero_or_pos n with h0 | hpos
  · subst h0
    rfl
  · have hlt : n < 1 * 2 ^ 1200 := by
      have : (2:ℕ) ^ 53 < 2 ^ 1200 := Nat.pow_lt_pow_right (by norm_num) (by norm_num)
      omega
    obtain ⟨hlo, hhi⟩ := expUpN_spec 1200 n 1 (by norm_num) hpos hlt
    rw [one_mul] at hlo hhi
    simp only [round53]
    by_cases he : expUpN 1200 n 1 ≤ 52
    · rw [if_pos he]
    · rw [if_neg he]
      have he53 : 53 ≤ expUpN 1200 n 1 := by omega
      have h253 : (2:ℕ) ^ 53 ≤ 2 ^ expUpN 1200 n 1 := Nat.pow_le_pow_right (by norm_num) he53
      have hn : n = 2 ^ 53 := by omega
      have he' : expUpN 1200 n 1 = 53 := by
        by_contra hne
        have : 54 ≤ expUpN 1200 n 1 := by omega
        have : (2:ℕ) ^ 54 ≤ 2 ^ expUpN 1200 n 1 := Nat.pow_le_pow_right (by norm_num) this
        have h254 : (2:ℕ) ^ 54 ≤ n := le_trans this hlo
        rw [hn] at h254
        norm_num at h254
      rw [he', hn]
      norm_num [rneScaled]

theorem rneScaled_bounds (qq rr m : ℕ) (hrr : rr < 10485760)
    (hm : m = rneScaled qq rr 10485760) :
    2 * 10485760 * m ≤ 2 * (10485760 * qq + rr) + 10485760 ∧
    2 * (10485760 * qq + rr) ≤ 2 * 10485760 * m + 10485760 := by
  subst hm
  unfold rneScaled
  split_ifs <;> constructor <;> omega

theorem chunkCountGo_eq (n : ℕ) (h1 : 1 ≤ n) (h53 : n ≤ 2 ^ 53) :
    chunkCountGo n = (n + 10485760 - 1) / 10485760 := by
  have hnf : round53 n = n := round53_id n h53
  simp only [chunkCountGo, hnf]
  have hc1 := Nat.div_add_mod (n + 10485760 - 1) 10485760
  have hc2 : (n + 10485760 - 1) % 10485760 < 10485760 := Nat.mod_lt _ (by norm_num)
  set c := (n + 10485760 - 1) / 10485760 with hcdef
  by_cases hge : 10485760 ≤ n
  · rw [if_pos hge]
    have hbig : n < 10485760 * 2 ^ 1200 := by
      have hA : (2:ℕ) ^ 53 < 2 ^ 1200 := Nat.pow_lt_pow_right (by norm_num) (by norm_num)
      have hB : (2:ℕ) ^ 1200 ≤ 10485760 * 2 ^ 1200 := Nat.le_mul_of_pos_left _ (by norm_num)
      omega
    obtain ⟨hlo, hhi⟩ := expUpN_spec 1200 n 10485760 (by norm_num) hge hbig
    set e := expUpN 1200 n 10485760 with hedef
    have he29 : e ≤ 29 := by
      by_contra hcon
      have h30 : 30 ≤ e := by omega
      have : (2:ℕ) ^ 30 ≤ 2 ^ e := Nat.pow_le_pow_right (by norm_num) h30
      have : 10485760 * 2 ^ 30 ≤ 10485760 * 2 ^ e := Nat.mul_le_mul_left _ this
      have hval : (10485760 : ℕ) * 2 ^ 30 = 11258999068426240 := by norm_num
      have h53v : (2:ℕ) ^ 53 = 9007199254740992 := by norm_num
      omega
    set t := 52 - e with htdef
    set P := 2 ^ t with hPdef
    have hP23 : 8388608 ≤ P := by
      have : (2:ℕ) ^ 23 ≤ 2 ^ t := Nat.pow_le_pow_right (by norm_num) (by omega)
      simpa using this
    have hdm := Nat.div_add_mod (n * P) 10485760
    have hrrlt : n * P % 10485760 < 10485760 := Nat.mod_lt _ (by norm_num)
    set qq := n * P / 10485760 with hqqdef
    set rr := n * P % 10485760 with hrrdef
    set m := rneScaled qq rr 10485760 with hmdef
    obtain ⟨hrne1, hrne2⟩ := rneScaled_bounds qq rr m hrrlt hmdef
    rw [hdm] at hrne1 hrne2
    -- bounds tying n and c
    by_cases hdvd : 10485760 ∣ n
    · obtain ⟨k, hk⟩ := hdvd
      have hrr0 : rr = 0 := by
        rw [hrrdef, hk, mul_assoc]
        exact Nat.mul_mod_right _ _
      have hqqv : qq = k * P := by
        have : 10485760 * qq + rr = 10485760 * (k * P) := by
          rw [hdm, hk]
          ring
        omega
      have hmv : m = k * P := by
        rw [hmdef]
        unfold rneScaled
        rw [hrr0, hqqv]
        norm_num
      have hck : c = k := by omega
      rw [hmv, hck]
      have hP1 : 1 ≤ P := by omega
      have hre : k * P + P - 1 = P - 1 + P * k := by
        rw [mul_comm P k]
        omega
      rw [hre, Nat.add_mul_div_left _ _ (by omega : 0 < P)]
      have : (P - 1) / P = 0 := Nat.div_eq_of_lt (by omega)
      omega
    · have hnne : n ≠ 10485760 * c := fun hcon => hdvd ⟨c, hcon⟩
      have hnlt : n ≤ 10485760 * c - 1 := by omega
      have hngt : 10485760 * (c - 1) + 1 ≤ n := by omega
      have hc1' : 1 ≤ c := by omega
      set cp := c * P with hcpdef
      have hup : n * P ≤ 10485760 * cp - P := by
        calc n * P ≤ (10485760 * c - 1) * P := Nat.mul_le_mul_right P hnlt
        _ = 10485760 * (c * P) - 1 * P := by
              rw [Nat.sub_mul]
              ring_nf
        _ = 10485760 * cp - P := by rw [one_mul]
      have hcpP : P ≤ cp := by
        calc P = 1 * P := (one_mul P).symm
        _ ≤ c * P := Nat.mul_le_mul_right P hc1'
      have hstep : (10485760 * (c - 1) + 1) * P ≤ n * P := Nat.mul_le_mul_right P hngt
      have hexp : (10485760 * (c - 1) + 1) * P = 10485760 * cp - 10485760 * P + P := by
        have h1b : (c - 1) * P = cp - P := by
          rw [hcpdef, Nat.sub_mul, one_mul]
        rw [Nat.add_mul, one_mul, mul_assoc, h1b, Nat.mul_sub]
      have hdown : 10485760 * cp - 10485760 * P + P ≤ n * P := hexp ▸ hstep
      have hmlow : cp - P + 1 ≤ m := by omega
      have hmhigh : m < cp := by omega
      have := Nat.div_eq_of_lt_le (show c * P ≤ m + P - 1 by omega)
        (show m + P - 1 < (c + 1) * P by
          rw [Nat.add_mul, one_mul]
          omega)
      rw [this]
  · rw [if_neg hge]
    have hnD : n < 10485760 := by omega
    have hfuel : 10485760 ≤ n * 2 ^ 1200 := by
      have hA : (2:ℕ) ^ 24 ≤ 2 ^ 1200 := Nat.pow_le_pow_right (by norm_num) (by norm_num)
      have hB : 2 ^ 1200 ≤ n * 2 ^ 1200 := Nat.le_mul_of_pos_left _ (by omega)
      have : (10485760 : ℕ) ≤ 2 ^ 24 := by norm_num
      omega
    obtain ⟨hk1, hklo, hkhi⟩ := expDownN_spec 1200 n 10485760 h1 hnD hfuel
    set k := expDownN 1200 n 10485760 with hkdef
    set t := 52 + k with htdef
    set P := 2 ^ t with hPdef
    have hP53 : 9007199254740992 ≤ P := by
      have : (2:ℕ) ^ 53 ≤ 2 ^ t := Nat.pow_le_pow_right (by norm_num) (by omega)
      have hv : (2:ℕ) ^ 53 = 9007199254740992 := by norm_num
      omega
    have hdm := Nat.div_add_mod (n * P) 10485760
    have hrrlt : n * P % 10485760 < 10485760 := Nat.mod_lt _ (by norm_num)
    set qq := n * P / 10485760 with hqqdef
    set rr := n * P % 10485760 with hrrdef
    set m := rneScaled qq rr 10485760 with hmdef
    obtain ⟨hrne1, hrne2⟩ := rneScaled_bounds qq rr m hrrlt hmdef
    rw [hdm] at hrne1 hrne2
    have hcv : c = 1 := by omega
    have hnpP : P ≤ n * P := by
      calc P = 1 * P := (one_mul P).symm
      _ ≤ n * P := Nat.mul_le_mul_right P h1
    have hnpUp : n * P ≤ 10485759 * P := Nat.mul_le_mul_right P (by omega)
    have hm1 : 1 ≤ m := by omega
    have hmP : m ≤ P := by omega
    rw [hcv]
    exact Nat.div_eq_of_lt_le (by omega) (by rw [Nat.add_mul, one_mul]; omega)

theorem proofOffset_lt (hex : List Char) (n : ℕ) (h : 1 ≤ n) :
    proofOffset hex n < n := Nat.mod_lt _ h

theorem proofWindow_length (content : List ℕ) (n off : ℕ)
    (hlen : content.length = n) (hoff : off < n) :
    (proofWindow content off (proofEnd off n)).length = proofEnd off n - off := by
  unfold proofWindow proofEnd
  rw [List.length_take, List.length_drop, hlen]
  omega

theorem proofWindow_get (content : List ℕ) (off fin j : ℕ)
    (hj : j < (proofWindow content off fin).length) :
    (proofWindow content off fin).get ⟨j, hj⟩ =
      content.getD (off + j) 0 := by
  unfold proofWindow at *
  rw [List.get_eq_getElem, List.getElem_take, List.getElem_drop]
  have hb : off + j < content.length := by
    have h1 := hj
    rw [List.length_take, List.length_drop] at h1
    omega
  rw [List.getD_eq_getElem _ _ hb]

/-- Claim C3 (amended): a COPY or MOVE whose destination has the same final
segment as the source is performed as a single backend batch-move call
provided the last-slash indices of the two trimmed paths differ (in
particular the parents differ); when the indices coincide the request falls
through to rename or to the generic recursive copy/move instead. -/
theorem claim_C3_amended (src dst : List Char)
    (hidx : lastIndexSlash src ≠ lastIndexSlash dst)
    (hname : dropPos (lastIndexSlash src + 1) src = dropPos (lastIndexSlash dst + 1) dst) :
    classifyCopyMove src dst = .batchMove := by
  unfold classifyCopyMove
  rw [if_neg, if_pos ⟨hname, hidx⟩]
  rintro (⟨_, h2⟩ | ⟨h1, _⟩)
  · exact hidx h2
  · exact hidx h1

theorem dispatchConfig_refreshes (cfg : Config) (now : ℤ) (refreshed : Config)
    (h : cfg.expireTime < now - 100) :
    dispatchConfig cfg now refreshed = refreshed := by
  unfold dispatchConfig needRefresh
  simp [h]

theorem dispatchConfig_stale (cfg : Config) (now : ℤ) (refreshed : Config)
    (h : ¬ cfg.expireTime < now - 100) :
    dispatchConfig cfg now refreshed = cfg := by
  unfold dispatchConfig needRefresh
  simp [h]

theorem postGo_all_err (attempts : ℕ → Option ℤ) :
    ∀ fuel i, (∀ k, k < fuel → attempts (i + k) = none) →
      postGo attempts i fuel = (-1, fuel) := by
  intro fuel
  induction fuel with
  | zero => intro i _; rfl
  | succ f ih =>
      intro i h
      have h0 : attempts i = none := by
        have := h 0 (by omega)
        simpa using this
      have hrest : ∀ k, k < f → attempts (i + 1 + k) = none := by
        intro k hk
        have := h (k + 1) (by omega)
        simpa [Nat.add_assoc, Nat.add_comm 1 k] using this
      simp only [postGo, h0, ih (i + 1) hrest]

theorem putGo_all_fail (attempts : ℕ → Option ℤ) :
    ∀ fuel i, (∀ k, k < fuel → attempts (i + k) ≠ some 200) →
      putGo attempts i fuel = (-1, fuel) := by
  intro fuel
  induction fuel with
  | zero => intro i _; rfl
  | succ f ih =>
      intro i h
      have hrest : ∀ k, k < f → attempts (i + 1 + k) ≠ some 200 := by
        intro k hk
        have := h (k + 1) (by omega)
        simpa [Nat.add_assoc, Nat.add_comm 1 k] using this
      have h0 : attempts i ≠ some 200 := by
        have := h 0 (by omega)
        simpa using this
      cases hcase : attempts i with
      | none => simp only [putGo, hcase, ih (i + 1) hrest]
      | some s =>
          have hs : ¬ s = 200 := by
            intro hs200
            exact h0 (by rw [hcase, hs200])
          simp only [putGo, hcase, if_neg hs, ih (i + 1) hrest]

theorem ghpEarlyStatus_notFound (detail : FileDetail) (walkFi : FileDetail)
    (hd : detail.fileId = "") (hw : walkFi.fileId = "") :
    ghpEarlyStatus detail false walkFi = some 404 := by
  simp [ghpEarlyStatus, hd, hw]

theorem handleDelete_unresolved (lastSeg : String) (detail : FileDetail)
    (walkErr : Bool) (walkFi : FileDetail)
    (hd : detail.name ≠ lastSeg) (hw : walkFi.name ≠ lastSeg) :
    handleDelete lastSeg detail walkErr walkFi = { status := 204, removed := false } := by
  unfold handleDelete
  rw [if_neg hd, if_neg]
  rintro ⟨-, h⟩
  exact hw h

theorem cacheGet_del_self (c : Cache) (k : String) :
    cacheGet (cacheDel c k) k = none := by
  induction c with
  | nil => rfl
  | cons p rest ih =>
      unfold cacheDel cacheGet at *
      by_cases hp : p.1 = k
      · have h1 : (p.1 != k) = false := by simp [hp]
        simp only [List.filter, h1]
        exact ih
      · have h1 : (p.1 != k) = true := by simp [hp]
        have h2 : (p.1 == k) = false := by simp [hp]
        simp only [List.filter, h1, List.find?, h2]
        exact ih

theorem cacheGet_del_other (c : Cache) (k k' : String) (h : k' ≠ k) :
    cacheGet (cacheDel c k) k' = cacheGet c k' := by
  induction c with
  | nil => rfl
  | cons p rest ih =>
      unfold cacheDel cacheGet at *
      by_cases hp : p.1 = k
      · have h1 : (p.1 != k) = false := by simp [hp]
        have h2 : (p.1 == k') = false := by
          simp only [beq_eq_false_iff_ne, ne_eq]
          intro hh
          exact h (by rw [← hh, hp])
        simp only [List.filter, h1, List.find?, h2]
        exact ih
      · have h1 : (p.1 != k) = true := by simp [hp]
        simp only [List.filter, h1, List.find?]
        by_cases hq : p.1 = k'
        · have h2 : (p.1 == k') = true := by simp [hq]
          simp only [h2]
        · have h2 : (p.1 == k') = false := by simp [hq]
          simp only [h2]
          exact ih

theorem cacheGet_set_other (c : Cache) (k k' v : String) (h : k' ≠ k) :
    cacheGet (cacheSet c k v) k' = cacheGet c k' := by
  have hstep : cacheGet ((k, v) :: cacheDel c k) k' = cacheGet (cacheDel c k) k' := by
    unfold cacheGet
    have h2 : (((k, v) : String × String).1 == k') = false := by
      simp only [beq_eq_false_iff_ne, ne_eq]
      intro hh
      exact h hh.symm
    simp only [List.find?, h2]
  rw [cacheSet, hstep, cacheGet_del_other c k k' h]

theorem cacheGet_set_self (c : Cache) (k v : String) :
    cacheGet (cacheSet c k v) k = some v := by
  unfold cacheSet cacheGet
  have h2 : (((k, v) : String × String).1 == k) = true := by simp
  simp only [List.find?, h2]
  rfl

/-! ## Helper lemmas about the embedded operations -/

theorem renewGo_agree (resp resp' : ℕ → List UploadUrlT) (count : ℕ) :
    ∀ fuel c, (∀ k, k ≤ fuel → resp' (c + k) = resp (c + k)) →
      renewGo resp' count c fuel = renewGo resp count c fuel := by
  intro fuel
  induction fuel with
  | zero =>
      intro c h
      have h0 := h 0 (by omega)
      simp only [renewGo]
      rw [show c + 0 = c by omega] at h0
      rw [h0]
  | succ f ih =>
      intro c h
      have h0 : resp' c = resp c := by
        have := h 0 (by omega)
        simpa using this
      have hrest : ∀ k, k ≤ f → resp' (c + 1 + k) = resp (c + 1 + k) := by
        intro k hk
        have := h (k + 1) (by omega)
        rw [show c + (k + 1) = c + 1 + k by omega] at this
        exact this
      simp only [renewGo, h0, ih (c + 1) hrest]

theorem renewGo_all_empty (resp : ℕ → List UploadUrlT) (count : ℕ) (hc : 1 ≤ count) :
    ∀ fuel c, (∀ k, k ≤ fuel → resp (c + k) = []) →
      renewGo resp count c fuel = ([], fuel + 1) := by
  intro fuel
  induction fuel with
  | zero =>
      intro c h
      have h0 := h 0 (by omega)
      simp only [renewGo]
      rw [show c + 0 = c by omega] at h0
      rw [h0]
  | succ f ih =>
      intro c h
      have h0 : resp c = [] := by
        have := h 0 (by omega)
        simpa using this
      have hrest : ∀ k, k ≤ f → resp (c + 1 + k) = [] := by
        intro k hk
        have := h (k + 1) (by omega)
        rw [show c + (k + 1) = c + 1 + k by omega] at this
        exact this
      have hne : ¬ ([] : List UploadUrlT).length = count := by
        simp
        omega
      simp only [renewGo, h0, hne, if_false, ih (c + 1) hrest]

theorem renewUploadUrls_all_empty (resp : ℕ → List UploadUrlT) (count c : ℕ)
    (hc : 1 ≤ count) (h : ∀ k, k < 10 → resp (c + k) = []) :
    renewUploadUrls resp count c = ([], 10) := by
  unfold renewUploadUrls
  rw [renewGo_all_empty resp count hc 9 c (fun k hk => h k (by omega))]

theorem uploadLoop_expired_abort (env : Env) (n count : ℕ) (fid : String)
    (rem : ℕ) (urls : List UploadUrlT) (c : ℕ) (acc : List ℕ) (u : UploadUrlT)
    (hread : env.chunkReadOk (count - (rem + 1)) = true)
    (hurl : urls.get? (count - (rem + 1)) = some u)
    (hexp : env.nowAtChunk (count - (rem + 1)) > u.expire)
    (hrenew : renewUploadUrls env.renewResp count c = ([], 10)) :
    uploadLoop env n count fid (rem + 1) urls c acc =
      { fileId := "", chunksSent := acc.reverse, renewCallsMade := c + 10,
        completed := false, panicked := false } := by
  simp only [uploadLoop]
  rw [hread]
  simp only [Bool.true_eq_false, if_false, hurl]
  rw [if_pos hexp, hrenew]
  simp

theorem uploadLoop_success (env : Env) (n count : ℕ) (fid : String) :
    ∀ rem, rem ≤ count →
      ∀ (urls : List UploadUrlT) (c : ℕ) (acc : List ℕ),
      urls.length = count →
      (∀ i, i < count → env.chunkReadOk i = true) →
      (∀ i, i < count → env.uploadOk i = true) →
      (∀ i, i < count → ∀ u, urls.get? i = some u → ¬ env.nowAtChunk i > u.expire) →
      uploadLoop env n count fid rem urls c acc =
        { fileId := fid,
          chunksSent := acc.reverse ++
            (List.range' (count - rem) rem).map (chunkSize n count),
          renewCallsMade := c, completed := true, panicked := false } := by
  intro rem
  induction rem with
  | zero =>
      intro _ urls c acc _ _ _ _
      simp [uploadLoop]
  | succ r ih =>
      intro hrem urls c acc hlen hread hup hexp
      have hi : count - (r + 1) < count := by omega
      have hlt : count - (r + 1) < urls.length := by
        rw [hlen]
        omega
      obtain ⟨u, hu⟩ : ∃ u, urls.get? (count - (r + 1)) = some u :=
        ⟨urls.get ⟨_, hlt⟩, List.get?_eq_get hlt⟩
      simp only [uploadLoop]
      rw [hread _ hi]
      simp only [Bool.true_eq_false, if_false, hu]
      rw [if_neg (hexp _ hi u hu), if_pos (by simpa using hup _ hi)]
      rw [ih (by omega) urls c (chunkSize n count (count - (r + 1)) :: acc) hlen hread hup hexp]
      have hrange : List.range' (count - (r + 1)) (r + 1) =
          (count - (r + 1)) :: List.range' (count - r) r := by
        have harg : count - (r + 1) + 1 = count - r := by omega
        rw [List.range'_succ, harg]
      rw [hrange]
      simp

theorem afterUpdate_proofComputed (env : Env) (n count : ℕ)
    (pr : Option (List Char)) (ur : UpdateResult) :
    (afterUpdate env n count pr ur).proofComputed = pr := by
  unfold afterUpdate failCH
  split_ifs <;> rfl

theorem afterHash_proofComputed (env : Env) (n count : ℕ) (pr : Option (List Char)) :
    (afterHash env n count pr).proofComputed = pr := by
  simp only [afterHash]
  split_ifs <;> first
    | rfl
    | exact afterUpdate_proofComputed env n count pr env.updateResult

theorem ContentHandle_zero (env : Env) (h0 : env.contentLength = 0)
    (hf : env.updateResult.fileId ≠ "") :
    ContentHandle env =
      { fileId := env.updateResult.fileId, spoolCreated := false,
        spoolRemoved := false, usedEmptyHash := true, proofComputed := none,
        chunksSent := [], renewCallsMade := 0, completed := false,
        panicked := false } := by
  unfold ContentHandle
  rw [if_neg (by rw [h0]; decide), if_pos hf]

theorem putContinueUpload_of_success (rp fn : String) (c1 : Cache) (bc : ℕ)
    (chEnv : Env) (h : (ContentHandle chEnv).fileId ≠ "") :
    (putContinueUpload rp fn c1 bc chEnv).status = 201 ∧
    (putContinueUpload rp fn c1 bc chEnv).engineResult = some (ContentHandle chEnv) := by
  unfold putContinueUpload
  rw [if_pos h]
  exact ⟨rfl, rfl⟩

theorem putContinueUpload_of_failure (rp fn : String) (c1 : Cache) (bc : ℕ)
    (chEnv : Env) (h : (ContentHandle chEnv).fileId = "") :
    (putContinueUpload rp fn c1 bc chEnv).status = 400 := by
  unfold putContinueUpload
  rw [if_neg (by simpa using h)]

theorem fid_key_ne_marker_key (rp : String) :
    ("FID_" ++ rp : String) ≠ ("IN_PROGRESS" ++ rp : String) := by
  intro h
  have hlen := congrArg String.length h
  have h4 : ("FID_" : String).length = 4 := rfl
  have h11 : ("IN_PROGRESS" : String).length = 11 := rfl
  rw [String.length_append, String.length_append, h4, h11] at hlen
  omega

theorem putContinueUpload_marker (rp fn : String) (c1 : Cache) (bc : ℕ) (chEnv : Env) :
    ∀ ec, (putContinueUpload rp fn c1 bc chEnv).engineCache = some ec →
      cacheGet ec ("IN_PROGRESS" ++ rp) ≠ none ∧
      cacheGet (putContinueUpload rp fn c1 bc chEnv).cacheOut ("IN_PROGRESS" ++ rp) = none := by
  intro ec hec
  simp only [putContinueUpload] at hec ⊢
  split_ifs at hec ⊢ with h
  · have : ec = cacheSet c1 ("IN_PROGRESS" ++ rp) fn := by
      simpa using hec.symm
    subst this
    constructor
    · rw [cacheGet_set_self]
      simp
    · have hne : ("IN_PROGRESS" ++ rp : String) ≠ ("FID_" ++ rp : String) :=
        fun hh => (fid_key_ne_marker_key rp) hh.symm
      rw [cacheGet_set_other _ _ _ _ hne, cacheGet_del_self]
  · have : ec = cacheSet c1 ("IN_PROGRESS" ++ rp) fn := by
      simpa using hec.symm
    subst this
    constructor
    · rw [cacheGet_set_self]
      simp
    · exact cacheGet_del_self _ _

theorem handlePut_cases (cacheIn : Cache) (p : PutEnv) (chEnv : Env) :
    handlePut cacheIn p chEnv = putNoEngine 201 cacheIn 0 ∨
    handlePut cacheIn p chEnv = putNoEngine 404 cacheIn 0 ∨
    handlePut cacheIn p chEnv = putNoEngine 200 cacheIn 0 ∨
    handlePut cacheIn p chEnv = putNoEngine 409 cacheIn 1 ∨
    ∃ fn c1 bc, handlePut cacheIn p chEnv =
      putContinueUpload (strOf p.reqPath) fn c1 bc chEnv := by
  simp only [handlePut]
  split_ifs with h1 h2 h3 h4 h5 h6
  · exact Or.inl rfl
  · exact Or.inr (Or.inl rfl)
  · exact Or.inr (Or.inr (Or.inl rfl))
  · rcases hm : cacheGet cacheIn
        ("FID_" ++ strOf (takePos (lastIndexSlash p.reqPath) p.reqPath)) with _ | _
    · simp only [hm]
      exact Or.inr (Or.inr (Or.inr (Or.inr ⟨_, _, _, rfl⟩)))
    · simp only [hm]
      exact Or.inr (Or.inr (Or.inr (Or.inr ⟨_, _, _, rfl⟩)))
  · rcases hm : cacheGet cacheIn
        ("FID_" ++ strOf (takePos (lastIndexSlash p.reqPath) p.reqPath)) with _ | _
    · simp only [hm]
      exact Or.inr (Or.inr (Or.inr (Or.inl trivial)))
    · simp only [hm]
      exact Or.inr (Or.inr (Or.inr (Or.inr ⟨_, _, _, rfl⟩)))
  · rcases hm : cacheGet cacheIn
        ("FID_" ++ strOf (takePos (lastIndexSlash p.reqPath) p.reqPath)) with _ | _
    · simp only [hm]
      exact Or.inr (Or.inr (Or.inr (Or.inl trivial)))
    · simp only [hm]
      exact Or.inr (Or.inr (Or.inr (Or.inr ⟨_, _, _, rfl⟩)))
  · exact Or.inr (Or.inr (Or.inr (Or.inr ⟨_, _, _, rfl⟩)))

theorem ContentHandle_proofComputed (env : Env) (h0 : 0 < env.contentLength)
    (hos : env.osCreateOk = true) :
    (ContentHandle env).proofComputed =
      (contentHandleSpooled env env.contentLength.toNat
        (chunkCount env.contentLength.toNat)).proofComputed := by
  simp only [ContentHandle]
  rw [if_pos h0, hos,
    if_neg (show ¬ ((true : Bool) = false) by decide)]

theorem contentHandleSpooled_proof_409 (env : Env) (n count : ℕ)
    (hcopy : env.copyOk = true)
    (helig : 153600 < env.contentLength ∧ env.contentLength ≤ 26843545600)
    (hpr : env.preHashReadOk = true) (h409 : env.preHashStatus = 409)
    (hps : env.proofSeekOk = true) (hprd : env.proofReadOk = true) :
    (contentHandleSpooled env n count).proofComputed =
      some (GetProof (proofWindow env.body (proofOffset env.tokenMd5Hex n)
        (proofEnd (proofOffset env.tokenMd5Hex n) n))) := by
  simp only [contentHandleSpooled]
  rw [hcopy, if_neg (show ¬ ((true : Bool) = false) by decide),
    if_pos helig, hpr, if_neg (show ¬ ((true : Bool) = false) by decide),
    h409, if_pos rfl, hps, if_neg (show ¬ ((true : Bool) = false) by decide),
    hprd, if_neg (show ¬ ((true : Bool) = false) by decide)]
  exact afterHash_proofComputed env n count _

/-! ## Claim theorems -/

/-- Claim C1 (counterexample): at the declared content length
n = 10·2^50 + 1 = 11258999068426241 — a legal int64 Content-Length — the
program's float64 pipeline (the int64 length rounds to nearest-even onto
the 53-bit grid, losing the final +1, and the quotient is exactly 2^30)
computes 1073741824 chunks, while ceil(n / 10485760) is 1073741825; so the
original claim, quantified over every n ≥ 1, is false of the program. -/
theorem claim_C1_counterexample :
    chunkCountGo 11258999068426241 = 1073741824 ∧
    chunkCount 11258999068426241 = 1073741825 ∧
    chunkCountGo 11258999068426241 ≠ chunkCount 11258999068426241 ∧
    chunkCountGo 10485761 = 2 ∧ chunkCount 10485761 = 2 := by
  have hc1 : chunkCount 11258999068426241 = 1073741825 := by
    rw [chunkCount_eq_div]
    norm_num [DEFAULT]
  have hc2 : chunkCount 10485761 = 2 := by
    rw [chunkCount_eq_div]
    norm_num [DEFAULT]
  refine ⟨by decide, hc1, ?_, by decide, hc2⟩
  rw [hc1]
  decide

/-- Claim C1 (amended, restricted to n ≤ 2^53, the range on which float64
arithmetic represents the length and the quotient rounding cannot cross an
integer): for every PUT with declared content length 1 ≤ n ≤ 2^53 handled
by the upload engine, the program's float64 chunk count equals the exact
ceil(n / 10485760) (executably (n + 10485760 - 1) / 10485760), every chunk
except the last has size 10485760 bytes, the last chunk's size is the
remainder n - (count-1)*10485760, the chunk sizes sum to n, and a fully
successful run of the upload loop transfers exactly chunks 0..count-1 with
those sizes. -/
theorem claim_C1_chunk_layout (n : ℕ) (h : 1 ≤ n) (h53 : n ≤ 2 ^ 53) :
    chunkCountGo n = chunkCount n ∧
    chunkCount n = (n + DEFAULT - 1) / DEFAULT ∧
    (∀ i, i + 1 < chunkCount n → chunkSize n (chunkCount n) i = DEFAULT) ∧
    chunkSize n (chunkCount n) (chunkCount n - 1) =
      n - (chunkCount n - 1) * DEFAULT ∧
    (∑ i ∈ Finset.range (chunkCount n), chunkSize n (chunkCount n) i) = n ∧
    (∀ (env : Env) (fid : String) (urls : List UploadUrlT) (c : ℕ),
      urls.length = chunkCount n →
      (∀ i, i < chunkCount n → env.chunkReadOk i = true) →
      (∀ i, i < chunkCount n → env.uploadOk i = true) →
      (∀ i, i < chunkCount n → ∀ u, urls.get? i = some u →
        ¬ env.nowAtChunk i > u.expire) →
      (uploadLoop env n (chunkCount n) fid (chunkCount n) urls c []).chunksSent =
        (List.range' 0 (chunkCount n)).map (chunkSize n (chunkCount n))) := by
  refine ⟨?_, chunkCount_eq_div n, ?_, ?_, chunkSize_sum n h, ?_⟩
  · rw [chunkCountGo_eq n h h53, chunkCount_eq_div n,
      show DEFAULT = 10485760 from rfl]
  · intro i hi
    unfold chunkSize
    rw [if_neg (by omega), if_neg (by omega)]
  · by_cases hc : chunkCount n = 1
    · rw [hc]
      simp [chunkSize]
    · unfold chunkSize
      rw [if_neg hc, if_pos rfl]
  · intro env fid urls c hlen hread hup hexp
    rw [uploadLoop_success env n (chunkCount n) fid (chunkCount n) le_rfl urls c []
      hlen hread hup hexp]
    simp

theorem claim_C1_witness :
    1 ≤ 24117248 ∧ 24117248 ≤ 2 ^ 53 ∧
    (chunkCountGo 24117248 = chunkCount 24117248 ∧
    chunkCount 24117248 = (24117248 + DEFAULT - 1) / DEFAULT ∧
    (∀ i, i + 1 < chunkCount 24117248 →
      chunkSize 24117248 (chunkCount 24117248) i = DEFAULT) ∧
    chunkSize 24117248 (chunkCount 24117248) (chunkCount 24117248 - 1) =
      24117248 - (chunkCount 24117248 - 1) * DEFAULT ∧
    (∑ i ∈ Finset.range (chunkCount 24117248),
      chunkSize 24117248 (chunkCount 24117248) i) = 24117248 ∧
    (∀ (env : Env) (fid : String) (urls : List UploadUrlT) (c : ℕ),
      urls.length = chunkCount 24117248 →
      (∀ i, i < chunkCount 24117248 → env.chunkReadOk i = true) →
      (∀ i, i < chunkCount 24117248 → env.uploadOk i = true) →
      (∀ i, i < chunkCount 24117248 → ∀ u, urls.get? i = some u →
        ¬ env.nowAtChunk i > u.expire) →
      (uploadLoop env 24117248 (chunkCount 24117248) fid (chunkCount 24117248)
        urls c []).chunksSent =
        (List.range' 0 (chunkCount 24117248)).map
          (chunkSize 24117248 (chunkCount 24117248)))) :=
  ⟨by norm_num, by norm_num,
   claim_C1_chunk_layout 24117248 (by norm_num) (by norm_num)⟩

/-- Claim C3 (counterexample): the COPY/MOVE source "a/f" and destination
"b/f" share the final segment "f" and have different parents "a/" and "b/",
yet handleCopyMove classifies the request as the generic recursive
copy/move, not as a single batch-move call, because the two last-slash
indices are equal. -/
theorem claim_C3_counterexample :
    dropPos (lastIndexSlash ("a/f".toList) + 1) ("a/f".toList) =
      dropPos (lastIndexSlash ("b/f".toList) + 1) ("b/f".toList) ∧
    takePos (lastIndexSlash ("a/f".toList) + 1) ("a/f".toList) ≠
      takePos (lastIndexSlash ("b/f".toList) + 1) ("b/f".toList) ∧
    classifyCopyMove ("a/f".toList) ("b/f".toList) = CopyMoveClass.generic := by
  decide

theorem claim_C3_witness :
    classifyCopyMove ("a/b/f".toList) ("c/f".toList) = CopyMoveClass.batchMove :=
  claim_C3_amended _ _ (by decide) (by decide)

/-- Claim C5: every ContentHandle run that created the spool (intermediate)
file also removes it when the run ends — the Remove is installed as a defer
immediately after the successful os.Create, so it fires on every exit path,
success, failure, or rapid-upload return. -/
theorem claim_C5_spool_removed (env : Env)
    (h : (ContentHandle env).spoolCreated = true) :
    (ContentHandle env).spoolRemoved = true := by
  simp only [ContentHandle] at h ⊢
  split_ifs at h ⊢ with h1 h2 h3
  all_goals first
    | rfl
    | simp [failCH] at h

theorem claim_C5_witness :
    (ContentHandle envSpoolW).spoolCreated = true ∧
    (ContentHandle envSpoolW).spoolRemoved = true :=
  ⟨rfl, claim_C5_spool_removed envSpoolW rfl⟩

/-- Claim C7 (counterexample): a snapshot whose expiry equals the current
time — squarely within any small margin of expiry — is NOT refreshed before
dispatch: ServeHTTP only refreshes when the snapshot expired more than 100
seconds ago (`ExpireTime < now - 100`). -/
theorem claim_C7_counterexample :
    dispatchConfig ⟨"r", "t", "d", 1000⟩ 1000 ⟨"r2", "t2", "d2", 9999⟩ =
      ⟨"r", "t", "d", 1000⟩ ∧
    (⟨"r", "t", "d", 1000⟩ : Config) ≠ ⟨"r2", "t2", "d2", 9999⟩ ∧
    ((⟨"r", "t", "d", 1000⟩ : Config).expireTime ≤ 1000) := by
  refine ⟨?_, ?_, ?_⟩ <;> decide

/-- Claim C7 (amended): before the method is dispatched, the token snapshot
is refreshed exactly when it expired more than 100 seconds before the
current clock reading; otherwise dispatch observes the held snapshot
unchanged. -/
theorem claim_C7_amended (cfg : Config) (now : ℤ) (refreshed : Config) :
    (cfg.expireTime < now - 100 → dispatchConfig cfg now refreshed = refreshed) ∧
    (¬ cfg.expireTime < now - 100 → dispatchConfig cfg now refreshed = cfg) :=
  ⟨dispatchConfig_refreshes cfg now refreshed,
   dispatchConfig_stale cfg now refreshed⟩

theorem claim_C7_witness :
    dispatchConfig ⟨"r", "t", "d", 0⟩ 1000 ⟨"r2", "t2", "d2", 5000⟩ =
      ⟨"r2", "t2", "d2", 5000⟩ ∧
    dispatchConfig ⟨"r", "t", "d", 950⟩ 1000 ⟨"r2", "t2", "d2", 5000⟩ =
      ⟨"r", "t", "d", 950⟩ :=
  ⟨(claim_C7_amended ⟨"r", "t", "d", 0⟩ 1000 ⟨"r2", "t2", "d2", 5000⟩).1 (by decide),
   (claim_C7_amended ⟨"r", "t", "d", 950⟩ 1000 ⟨"r2", "t2", "d2", 5000⟩).2 (by decide)⟩

/-- Claim C8 (counterexample): PostExpectStatus receiving a 500 response on
its first attempt returns it immediately after one single attempt — non-2xx
responses are not retried on the POST path (only transport errors are). -/
theorem claim_C8_counterexample :
    postExpectStatus (fun _ => some 500) = (500, 1) := by
  decide

/-- Claim C8 (amended): backend calls use a retry budget of 5 with a fixed
delay, but the two clients differ: PostExpectStatus retries only transport
errors and returns the first received response whatever its status, while
the chunk Put retries transport errors and non-200 responses; an exhausted
budget surfaces as the local failure code -1 after exactly 5 attempts. -/
theorem claim_C8_amended (aPost aPostErr aPut : ℕ → Option ℤ) (s : ℤ)
    (h1 : aPost 0 = some s)
    (h2 : ∀ i, i < 5 → aPostErr i = none)
    (h3 : ∀ i, i < 5 → aPut i ≠ some 200) :
    postExpectStatus aPost = (s, 1) ∧
    postExpectStatus aPostErr = (-1, 5) ∧
    putRetry aPut = (-1, 5) := by
  refine ⟨?_, ?_, ?_⟩
  · show postGo aPost 0 5 = (s, 1)
    simp only [postGo, h1]
  · show postGo aPostErr 0 5 = (-1, 5)
    exact postGo_all_err aPostErr 5 0 (fun k hk => by simpa using h2 k hk)
  · show putGo aPut 0 5 = (-1, 5)
    exact putGo_all_fail aPut 5 0 (fun k hk => by simpa using h3 k hk)

theorem claim_C8_witness :
    postExpectStatus (fun _ => some 502) = (502, 1) ∧
    postExpectStatus (fun _ => none) = (-1, 5) ∧
    putRetry (fun _ => some 503) = (-1, 5) :=
  claim_C8_amended (fun _ => some 502) (fun _ => none) (fun _ => some 503) 502
    rfl (fun _ _ => rfl) (fun _ _ => by simp)

/-- Claim C9 (counterexample): a DELETE whose target path cannot be resolved
(the cached detail does not match the final segment and the fallback walk
fails) still answers 204 No Content, not 404 — handleDelete falls through to
`return http.StatusNoContent` on every path. -/
theorem claim_C9_counterexample :
    handleDelete "f" ⟨"", "x", ""⟩ true ⟨"", "", ""⟩ =
      { status := 204, removed := false } ∧ (204 : ℕ) ≠ 404 := by
  refine ⟨?_, ?_⟩ <;> decide

/-- Claim C9 (amended): an unresolved path yields 404 on GET/HEAD/POST (when
the fallback walk returns no error and no file id), while DELETE answers 204
without removing anything whenever neither the cached detail nor the
fallback walk matches the final segment. -/
theorem claim_C9_amended (lastSeg : String) (detail walkFi d2 w2 : FileDetail)
    (walkErr : Bool)
    (hd : detail.fileId = "") (hw : walkFi.fileId = "")
    (hd2 : d2.name ≠ lastSeg) (hw2 : w2.name ≠ lastSeg) :
    ghpEarlyStatus detail false walkFi = some 404 ∧
    handleDelete lastSeg d2 walkErr w2 = { status := 204, removed := false } :=
  ⟨ghpEarlyStatus_notFound detail walkFi hd hw,
   handleDelete_unresolved lastSeg d2 walkErr w2 hd2 hw2⟩

theorem claim_C9_witness :
    ghpEarlyStatus ⟨"", "a", ""⟩ false ⟨"", "b", ""⟩ = some 404 ∧
    handleDelete "g" ⟨"id1", "x", "p"⟩ false ⟨"id2", "y", "p"⟩ =
      { status := 204, removed := false } :=
  claim_C9_amended "g" ⟨"", "a", ""⟩ ⟨"", "b", ""⟩ ⟨"id1", "x", "p"⟩ ⟨"id2", "y", "p"⟩
    false rfl rfl (by decide) (by decide)

/-- Claim C2: for a rapid-upload-eligible PUT of declared length n ≥ 1, the
proof offset is the first 16 hex characters of the access-token hash parsed
as an unsigned 64-bit integer reduced modulo n; it lies below n; the read
window holds exactly the bytes [offset, min(offset+8, n)) of the spooled
content; and ContentHandle's 409 branch derives the proof value as the
base64 rendering of exactly that window. -/
theorem claim_C2_proof_window (hex : List Char) (content : List ℕ) (n : ℕ)
    (h1 : 1 ≤ n) (hlen : content.length = n) :
    proofOffset hex n = (parseHex (hex.take 16)).getD 0 % n ∧
    proofOffset hex n < n ∧
    (proofWindow content (proofOffset hex n)
      (proofEnd (proofOffset hex n) n)).length =
        min (proofOffset hex n + 8) n - proofOffset hex n ∧
    (∀ j, (hj : j < (proofWindow content (proofOffset hex n)
        (proofEnd (proofOffset hex n) n)).length) →
      (proofWindow content (proofOffset hex n)
        (proofEnd (proofOffset hex n) n)).get ⟨j, hj⟩ =
        content.getD (proofOffset hex n + j) 0) ∧
    (∀ env : Env,
      env.contentLength = (n : ℤ) → env.body = content → env.tokenMd5Hex = hex →
      153600 < n → n ≤ 26843545600 →
      env.osCreateOk = true → env.copyOk = true → env.preHashReadOk = true →
      env.preHashStatus = 409 → env.proofSeekOk = true → env.proofReadOk = true →
      (ContentHandle env).proofComputed =
        some (GetProof (proofWindow content (proofOffset hex n)
          (proofEnd (proofOffset hex n) n)))) := by
  refine ⟨rfl, proofOffset_lt hex n h1, ?_, ?_, ?_⟩
  · exact proofWindow_length content n (proofOffset hex n) hlen
      (proofOffset_lt hex n h1)
  · intro j hj
    exact proofWindow_get content (proofOffset hex n)
      (proofEnd (proofOffset hex n) n) j hj
  · intro env hcl hbody hhex hlow hhigh hos hcopy hpr h409 hps hprd
    have h0 : (0 : ℤ) < env.contentLength := by
      rw [hcl]
      exact_mod_cast (by omega : 0 < n)
    have hton : env.contentLength.toNat = n := by
      rw [hcl]
      exact Int.toNat_natCast n
    rw [ContentHandle_proofComputed env h0 hos,
      contentHandleSpooled_proof_409 env env.contentLength.toNat
        (chunkCount env.contentLength.toNat) hcopy
        ⟨by rw [hcl]; exact_mod_cast hlow, by rw [hcl]; exact_mod_cast hhigh⟩
        hpr h409 hps hprd,
      hton, hbody, hhex]

theorem claim_C2_witness :
    1 ≤ 153601 ∧ (List.replicate 153601 (0 : ℕ)).length = 153601 ∧
    proofOffset (("0123456789abcdef").toList) 153601 =
      (parseHex ((("0123456789abcdef").toList).take 16)).getD 0 % 153601 ∧
    proofOffset (("0123456789abcdef").toList) 153601 < 153601 :=
  have hmain := claim_C2_proof_window (("0123456789abcdef").toList)
    (List.replicate 153601 0) 153601 (by norm_num) (by rw [List.length_replicate])
  ⟨by norm_num, by rw [List.length_replicate], hmain.1, hmain.2.1⟩

/-- Claim C4: a PUT with declared content length 0 that reaches the upload
engine creates the remote object directly through the zero-byte path — the
well-known empty-content SHA-1 DA39A3EE5E6B4B0D3255BFEF95601890AFD80709, no
spool file, no chunk transfer — and, when the backend create succeeds, the
handler answers 201 Created. -/
theorem claim_C4_zero_length_put (cacheIn : Cache) (p : PutEnv) (chEnv : Env)
    (h0 : chEnv.contentLength = 0)
    (hf : chEnv.updateResult.fileId ≠ "") :
    sha1Empty = "DA39A3EE5E6B4B0D3255BFEF95601890AFD80709" ∧
    ((handlePut cacheIn p chEnv).engineInvoked = true →
      (handlePut cacheIn p chEnv).status = 201 ∧
      (handlePut cacheIn p chEnv).engineResult =
        some { fileId := chEnv.updateResult.fileId, spoolCreated := false,
               spoolRemoved := false, usedEmptyHash := true, proofComputed := none,
               chunksSent := [], renewCallsMade := 0, completed := false,
               panicked := false }) := by
  refine ⟨rfl, ?_⟩
  intro hinv
  have hch := ContentHandle_zero chEnv h0 hf
  have hne : (ContentHandle chEnv).fileId ≠ "" := by
    rw [hch]
    simpa using hf
  rcases handlePut_cases cacheIn p chEnv with
    hcase | hcase | hcase | hcase | ⟨fn, c1, bc, hcase⟩
  · rw [hcase] at hinv
    simp [putNoEngine] at hinv
  · rw [hcase] at hinv
    simp [putNoEngine] at hinv
  · rw [hcase] at hinv
    simp [putNoEngine] at hinv
  · rw [hcase] at hinv
    simp [putNoEngine] at hinv
  · rw [hcase]
    obtain ⟨hs, hr⟩ :=
      putContinueUpload_of_success (strOf p.reqPath) fn c1 bc chEnv hne
    exact ⟨hs, by rw [hr, hch]⟩

theorem claim_C4_witness :
    (handlePut [] putEnvW envZeroW).status = 201 ∧
    (handlePut [] putEnvW envZeroW).engineResult =
      some { fileId := "fid0", spoolCreated := false, spoolRemoved := false,
             usedEmptyHash := true, proofComputed := none, chunksSent := [],
             renewCallsMade := 0, completed := false, panicked := false } :=
  (claim_C4_zero_length_put [] putEnvW envZeroW rfl (by decide)).2 rfl

/-- Claim C6: when a chunk's pre-signed URL has expired, the full chunk-URL
set is renewed with at most 10 GetUploadUrls calls (only the first ten
responses can matter); if every renewal attempt fails — per the backend
contract a failed call yields no URL set, embedded as the empty list — the
renewal loop ends empty, the upload loop aborts the whole upload with the
empty result, and the PUT handler surfaces any empty engine result as a
failed PUT with status 400. -/
theorem claim_C6_renewal_abort (count c : ℕ) (resp resp' : ℕ → List UploadUrlT)
    (hcount : 1 ≤ count)
    (hfail : ∀ k, k < 10 → resp (c + k) = [])
    (hagree : ∀ k, k < 10 → resp' (c + k) = resp (c + k)) :
    renewUploadUrls resp count c = ([], 10) ∧
    renewUploadUrls resp' count c = renewUploadUrls resp count c ∧
    (∀ (env : Env) (n : ℕ) (fid : String) (rem : ℕ) (urls : List UploadUrlT)
        (acc : List ℕ) (u : UploadUrlT),
      env.renewResp = resp →
      env.chunkReadOk (count - (rem + 1)) = true →
      urls.get? (count - (rem + 1)) = some u →
      env.nowAtChunk (count - (rem + 1)) > u.expire →
      uploadLoop env n count fid (rem + 1) urls c acc =
        { fileId := "", chunksSent := acc.reverse, renewCallsMade := c + 10,
          completed := false, panicked := false }) ∧
    (∀ (cacheIn : Cache) (p : PutEnv) (chEnv : Env),
      (handlePut cacheIn p chEnv).engineInvoked = true →
      (ContentHandle chEnv).fileId = "" →
      (handlePut cacheIn p chEnv).status = 400) := by
  have hmain : renewUploadUrls resp count c = ([], 10) :=
    renewUploadUrls_all_empty resp count c hcount hfail
  refine ⟨hmain, ?_, ?_, ?_⟩
  · unfold renewUploadUrls
    exact renewGo_agree resp resp' count 9 c (fun k hk => hagree k (by omega))
  · intro env n fid rem urls acc u hresp hread hurl hexp
    apply uploadLoop_expired_abort env n count fid rem urls c acc u hread hurl hexp
    rw [hresp]
    exact hmain
  · intro cacheIn p chEnv hinv hfid
    rcases handlePut_cases cacheIn p chEnv with
      hcase | hcase | hcase | hcase | ⟨fn, c1, bc, hcase⟩
    · rw [hcase] at hinv
      simp [putNoEngine] at hinv
    · rw [hcase] at hinv
      simp [putNoEngine] at hinv
    · rw [hcase] at hinv
      simp [putNoEngine] at hinv
    · rw [hcase] at hinv
      simp [putNoEngine] at hinv
    · rw [hcase]
      exact putContinueUpload_of_failure (strOf p.reqPath) fn c1 bc chEnv hfid

theorem claim_C6_witness :
    renewUploadUrls (fun _ => []) 1 0 = ([], 10) ∧
    renewUploadUrls (fun _ => []) 1 0 = renewUploadUrls (fun _ => []) 1 0 ∧
    (∀ (env : Env) (n : ℕ) (fid : String) (rem : ℕ) (urls : List UploadUrlT)
        (acc : List ℕ) (u : UploadUrlT),
      env.renewResp = (fun _ => []) →
      env.chunkReadOk (1 - (rem + 1)) = true →
      urls.get? (1 - (rem + 1)) = some u →
      env.nowAtChunk (1 - (rem + 1)) > u.expire →
      uploadLoop env n 1 fid (rem + 1) urls 0 acc =
        { fileId := "", chunksSent := acc.reverse, renewCallsMade := 0 + 10,
          completed := false, panicked := false }) ∧
    (∀ (cacheIn : Cache) (p : PutEnv) (chEnv : Env),
      (handlePut cacheIn p chEnv).engineInvoked = true →
      (ContentHandle chEnv).fileId = "" →
      (handlePut cacheIn p chEnv).status = 400) :=
  claim_C6_renewal_abort 1 0 (fun _ => []) (fun _ => [])
    (by norm_num) (fun _ _ => rfl) (fun _ _ => rfl)

/-- Claim C10: a PUT arriving while the shared cache holds the IN_PROGRESS
marker for the same path answers 201 Created at once, without invoking the
upload engine and without any backend call, leaving the cache untouched;
and whenever the engine does run, the marker is present in the cache at the
moment the engine is invoked and is gone from the cache when the handler
returns, on success and on failure alike. -/
theorem claim_C10_in_progress_marker (cacheIn : Cache) (p : PutEnv) (chEnv : Env) :
    ((cacheGet cacheIn ("IN_PROGRESS" ++ strOf p.reqPath)).isSome = true →
      (handlePut cacheIn p chEnv).status = 201 ∧
      (handlePut cacheIn p chEnv).engineInvoked = false ∧
      (handlePut cacheIn p chEnv).backendCalls = 0 ∧
      (handlePut cacheIn p chEnv).cacheOut = cacheIn) ∧
    (∀ ec, (handlePut cacheIn p chEnv).engineCache = some ec →
      cacheGet ec ("IN_PROGRESS" ++ strOf p.reqPath) ≠ none ∧
      cacheGet (handlePut cacheIn p chEnv).cacheOut
        ("IN_PROGRESS" ++ strOf p.reqPath) = none) := by
  constructor
  · intro hmark
    have hput : handlePut cacheIn p chEnv = putNoEngine 201 cacheIn 0 := by
      simp only [handlePut]
      rw [if_pos hmark]
    rw [hput]
    exact ⟨rfl, rfl, rfl, rfl⟩
  · rcases handlePut_cases cacheIn p chEnv with
      hcase | hcase | hcase | hcase | ⟨fn, c1, bc, hcase⟩
    · rw [hcase]
      intro ec h
      simp [putNoEngine] at h
    · rw [hcase]
      intro ec h
      simp [putNoEngine] at h
    · rw [hcase]
      intro ec h
      simp [putNoEngine] at h
    · rw [hcase]
      intro ec h
      simp [putNoEngine] at h
    · rw [hcase]
      exact putContinueUpload_marker (strOf p.reqPath) fn c1 bc chEnv

theorem claim_C10_witness :
    ((handlePut [("IN_PROGRESSx", "f")] putEnvW envSpoolW).status = 201 ∧
     (handlePut [("IN_PROGRESSx", "f")] putEnvW envSpoolW).engineInvoked = false ∧
     (handlePut [("IN_PROGRESSx", "f")] putEnvW envSpoolW).backendCalls = 0 ∧
     (handlePut [("IN_PROGRESSx", "f")] putEnvW envSpoolW).cacheOut =
       [("IN_PROGRESSx", "f")]) ∧
    (cacheGet ecMarkerW ("IN_PROGRESS" ++ strOf putEnvW.reqPath) ≠ none ∧
     cacheGet (handlePut [] putEnvW envSpoolW).cacheOut
       ("IN_PROGRESS" ++ strOf putEnvW.reqPath) = none) :=
  ⟨(claim_C10_in_progress_marker [("IN_PROGRESSx", "f")] putEnvW envSpoolW).1 rfl,
   (claim_C10_in_progress_marker [] putEnvW envSpoolW).2 ecMarkerW rfl⟩

/-! ## Rapid-upload proof computation (aliyun/tool.go, ContentHandle, 409 branch)

Source: `tokenMd5 := hex.EncodeToString(md.Sum(nil)); first16 := tokenMd5[:16];
f, err := strconv.ParseUint(first16, 16, 64); offset = int64(f % uint64(r.ContentLength));
end := math.Min(float64(offset+8), float64(r.ContentLength));
off := make([]byte, int64(end)-offset); intermediateFile.ReadAt(off, offset);
proof = utils.GetProof(off)`.
The MD5 digest itself is computed by Go's crypto library; the embedding takes
its lowercase-hex rendering as an input. -/

end AliyunWebdav
